import Mathlib

/-!
Shallow embedding of the `Demuxer` component of FFGLPlayer
(src/src/demuxer/demuxer.cpp, demuxer.hpp).

The C++ class wraps the FFmpeg libavformat engine.  The engine is external
to the repository, so its behaviour is modelled by explicit oracle values
passed to each operation:

* `avformat_open_input` / `avformat_find_stream_info` /
  `av_find_best_stream` results are bundled in an `OpenOracle`;
* `av_read_frame` is modelled by a finite tape of `ReadResult`s (the raw
  packet sequence the engine would deliver); `readPacket` returns `none`
  when the tape is exhausted before the loop terminates (the real loop
  would simply keep calling the engine);
* `av_seek_frame` success is a `Bool` oracle; the arguments the component
  passes to it are returned as an explicit trace so that theorems can
  speak about the value handed to the engine;
* `av_rescale_q` / `av_rescale_rnd` are FFmpeg library functions with a
  documented exact integer semantics; they are embedded directly below
  (the `AV_ROUND_NEAR_INF` path, the only one this program uses).

Machine integers are modelled as `Int`; the C `/` on the operands that
actually occur (all non-negative) agrees with Lean's `Int` division.
-/

/-- Modelled from the spec: `mediadefs.hpp` (the definition of `MediaType`)
is not part of the provided sources; the spec fixes the media kind to one
of VIDEO or AUDIO, fixed at construction. -/
inductive MediaType where
  | VIDEO
  | AUDIO
deriving DecidableEq, Repr

/-- FFmpeg `AVRational`: a rational time base `num/den`. -/
structure AVRational where
  num : Int
  den : Int
deriving DecidableEq, Repr

/-- FFmpeg `AV_NOPTS_VALUE` (`INT64_MIN`): sentinel for an unset timestamp
or duration. -/
def AV_NOPTS_VALUE : Int := -(2 ^ 63)

/-- FFmpeg `INT64_MAX`. -/
def INT64_MAX : Int := 2 ^ 63 - 1

/-- FFmpeg `AV_TIME_BASE_Q = {1, AV_TIME_BASE}`: the microsecond time base. -/
def AV_TIME_BASE_Q : AVRational := ⟨1, 1000000⟩

/-- FFmpeg `AVERROR_EOF = FFERRTAG('E','O','F',' ')`. -/
def AVERROR_EOF : Int := -541478725

/-- FFmpeg `av_rescale_rnd a b c AV_ROUND_NEAR_INF`: computes `a * b / c`
exactly in integers, rounding to the nearest integer with halfway cases
away from zero; returns `INT64_MIN` on invalid `b`, `c`.  This embeds the
`AV_ROUND_NEAR_INF` path of libavutil's `av_rescale_rnd` (the only
rounding mode the program uses, via `av_rescale_q`): for `a < 0` the C
code recurses on `-FFMAX(a, -INT64_MAX)` and negates the result. -/
def av_rescale_rnd (a b c : Int) : Int :=
  if c ≤ 0 ∨ b < 0 then AV_NOPTS_VALUE
  else if a < 0 then -((min (-a) INT64_MAX * b + c / 2) / c)
  else (a * b + c / 2) / c

/-- FFmpeg `av_rescale_q a bq cq = av_rescale_rnd a (bq.num*cq.den)
(cq.num*bq.den) AV_ROUND_NEAR_INF`. -/
def av_rescale_q (a : Int) (bq cq : AVRational) : Int :=
  av_rescale_rnd a (bq.num * cq.den) (cq.num * bq.den)

/-- FFmpeg `AVStream`, restricted to the fields the demuxer reads:
`time_base` and `duration` (in `time_base` units, `AV_NOPTS_VALUE` if
unknown). -/
structure AVStream where
  time_base : AVRational
  duration : Int
deriving DecidableEq, Repr

/-- FFmpeg `AVFormatContext`, restricted to the fields the demuxer reads:
`duration` (microseconds, `AV_NOPTS_VALUE` if unknown) and the `streams`
table.  A table entry is an `AVStream` pointer, hence `Option AVStream`
(`none` models a null pointer). -/
structure AVFormatContext where
  duration : Int
  streams : List (Option AVStream)
deriving DecidableEq, Repr

/-- The pointer value `ctx->streams[i]` for an `int` index `i`: `none`
both for a null entry and for an out-of-range index (the C access would
be undefined there; the FFmpeg contract, stated as a hypothesis where
needed, keeps indices returned by `av_find_best_stream` in range). -/
def AVFormatContext.streamAt (ctx : AVFormatContext) (i : Int) : Option AVStream :=
  if 0 ≤ i then ctx.streams.getD i.toNat none else none

/-- FFmpeg `AVPacket`, restricted to the fields the demuxer reads:
`stream_index`, plus an opaque payload identifying the coded data. -/
structure AVPacket where
  stream_index : Int
  payload : Nat
deriving DecidableEq, Repr

/-- The `Demuxer` class state (demuxer.hpp, private members). -/
structure Demuxer where
  type_ : MediaType
  format_ctx_ : Option AVFormatContext
  video_stream_ : Option AVStream
  audio_stream_ : Option AVStream
  video_stream_index_ : Int
  audio_stream_index_ : Int
  eof_file_ : Bool
deriving DecidableEq, Repr

/-- Embeds `Demuxer::Demuxer(MediaType type)`: the constructor's initializer
list. -/
def Demuxer.construct (t : MediaType) : Demuxer :=
  { type_ := t
    format_ctx_ := none
    video_stream_ := none
    audio_stream_ := none
    video_stream_index_ := -1
    audio_stream_index_ := -1
    eof_file_ := false }

/-- Embeds `Demuxer::getStreamIndex`. -/
def Demuxer.getStreamIndex (d : Demuxer) : Int :=
  if d.type_ = MediaType.VIDEO then d.video_stream_index_ else d.audio_stream_index_

/-- Embeds `Demuxer::getAVStream`. -/
def Demuxer.getAVStream (d : Demuxer) : Option AVStream :=
  if d.type_ = MediaType.VIDEO then d.video_stream_ else d.audio_stream_

/-- Embeds `Demuxer::isEOF`. -/
def Demuxer.isEOF (d : Demuxer) : Bool := d.eof_file_

/-- Embeds `Demuxer::close`: releases the format context (engine call, no model
state) and resets every member to its default. -/
def Demuxer.close (d : Demuxer) : Demuxer :=
  { d with
    format_ctx_ := none
    video_stream_ := none
    audio_stream_ := none
    video_stream_index_ := -1
    audio_stream_index_ := -1
    eof_file_ := false }

/-- Engine responses consumed by one `Demuxer::open` call:
`avformat_open_input` (`none` = failure, which leaves the caller's
context pointer null; `some ctx` = success, the probed context),
`avformat_find_stream_info` success, and the two `av_find_best_stream`
results (a negative value is the error return, e.g.
`AVERROR_STREAM_NOT_FOUND`). -/
structure OpenOracle where
  open_input : Option AVFormatContext
  find_stream_info_ok : Bool
  best_video : Int
  best_audio : Int
deriving DecidableEq, Repr

/-- FFmpeg contract for `av_find_best_stream`: a non-negative result is a
valid index of a non-null entry of the probed context's stream table. -/
def OpenOracleWF (o : OpenOracle) : Prop :=
  ∀ ctx, o.open_input = some ctx →
    (0 ≤ o.best_video → (ctx.streamAt o.best_video).isSome) ∧
    (0 ≤ o.best_audio → (ctx.streamAt o.best_audio).isSome)

/-- Embeds `Demuxer::open(const std::string&)` (`open` is a keyword, hence
the name).  Returns the new state and the boolean result. -/
def Demuxer.openFile (d : Demuxer) (o : OpenOracle) (filename : String) : Demuxer × Bool :=
  if filename.isEmpty then (d, false)
  else
    let d1 : Demuxer := if d.format_ctx_.isSome then d.close else d
    match o.open_input with
    | none => (d1, false)
    | some ctx =>
      let d2 : Demuxer := { d1 with format_ctx_ := some ctx }
      if !o.find_stream_info_ok then (d2.close, false)
      else
        let d3 : Demuxer := { d2 with video_stream_index_ := o.best_video }
        let d4 : Demuxer := if 0 ≤ d3.video_stream_index_ then
            { d3 with video_stream_ := ctx.streamAt d3.video_stream_index_ } else d3
        let d5 : Demuxer := { d4 with audio_stream_index_ := o.best_audio }
        let d6 : Demuxer := if 0 ≤ d5.audio_stream_index_ then
            { d5 with audio_stream_ := ctx.streamAt d5.audio_stream_index_ } else d5
        (d6, true)

/-- One `av_read_frame` response: `ok p` — returned 0 and filled the
packet; `fail code` — returned `code < 0` (error or `AVERROR_EOF`). -/
inductive ReadResult where
  | ok (p : AVPacket)
  | fail (code : Int)
deriving DecidableEq, Repr

/-- The `while (true)` loop body of `Demuxer::readPacket`, consuming the
engine's raw packet sequence `tape`; `none` means the tape ran out before
the loop terminated. -/
def readLoop (d : Demuxer) (tidx : Int) : List ReadResult → Option (Option AVPacket × Demuxer)
  | [] => none
  | ReadResult.fail code :: _ =>
    if code = AVERROR_EOF then some (none, { d with eof_file_ := true })
    else some (none, d)
  | ReadResult.ok p :: rest =>
    if p.stream_index = tidx then some (some p, d)
    else readLoop d tidx rest

/-- Embeds `Demuxer::readPacket`.  Result `some (res, dNew)` means the call terminates
returning `res` (`none` = C++ `nullptr`) with post-state `dNew`. -/
def Demuxer.readPacket (d : Demuxer) (tape : List ReadResult) :
    Option (Option AVPacket × Demuxer) :=
  if d.format_ctx_.isNone then some (none, d)
  else if d.getStreamIndex < 0 then some (none, d)
  else readLoop d d.getStreamIndex tape

/-- Embeds `Demuxer::seek(int64_t, int)`.  Here `seek_ok` is the oracle for
`av_seek_frame`'s result being non-negative.  The third component traces
the arguments `(stream_index, seek_target, flags)` passed to
`av_seek_frame`, `none` when the engine was never called. -/
def Demuxer.seek (d : Demuxer) (timestamp : Int) (flags : Int) (seek_ok : Bool) :
    Demuxer × Bool × Option (Int × Int × Int) :=
  match d.format_ctx_ with
  | none => (d, false, none)
  | some ctx =>
    let stream_index := d.getStreamIndex
    if stream_index < 0 then (d, false, none)
    else
      match ctx.streamAt stream_index with
      | none => (d, false, none)
      | some stream =>
        let seek_target := av_rescale_q timestamp AV_TIME_BASE_Q stream.time_base
        if seek_ok then
          ({ d with eof_file_ := false }, true, some (stream_index, seek_target, flags))
        else (d, false, some (stream_index, seek_target, flags))

/-- The early-return pattern `if (s && s->duration != AV_NOPTS_VALUE)
return av_rescale_q(s->duration, s->time_base, AV_TIME_BASE_Q);` used
three times in `Demuxer::getDuration`. -/
def streamDurationUS (s : Option AVStream) : Option Int :=
  match s with
  | none => none
  | some st =>
    if st.duration ≠ AV_NOPTS_VALUE then
      some (av_rescale_q st.duration st.time_base AV_TIME_BASE_Q)
    else none

/-- Embeds `Demuxer::getDuration`. -/
def Demuxer.getDuration (d : Demuxer) : Int :=
  match d.format_ctx_ with
  | none => 0
  | some ctx =>
    if ctx.duration ≠ AV_NOPTS_VALUE then ctx.duration
    else
      match streamDurationUS d.getAVStream with
      | some v => v
      | none =>
        match streamDurationUS d.video_stream_ with
        | some v => v
        | none =>
          match streamDurationUS d.audio_stream_ with
          | some v => v
          | none => 0

/-- Spec-side definition (for comparison with `Demuxer.getDuration`): the
resolution order stated by the spec — container-level duration if set,
else the target stream's duration rescaled to microseconds, else the
video stream's, else the audio stream's, else zero. -/
def durationResolutionOrder (d : Demuxer) (ctx : AVFormatContext) : Int :=
  if ctx.duration ≠ AV_NOPTS_VALUE then ctx.duration
  else
    (((streamDurationUS d.getAVStream).orElse fun _ => streamDurationUS d.video_stream_).orElse
      fun _ => streamDurationUS d.audio_stream_).getD 0

/-- The first engine response the `readPacket` loop acts on: skips `ok`
packets whose stream index differs from `tidx`. -/
def firstHit (tidx : Int) : List ReadResult → Option ReadResult
  | [] => none
  | ReadResult.fail code :: _ => some (ReadResult.fail code)
  | ReadResult.ok p :: rest =>
    if p.stream_index = tidx then some (ReadResult.ok p) else firstHit tidx rest

/-- FFmpeg contract on the fields of a probed stream: a positive rational
time base and a duration that is non-negative when set. -/
def StreamWF (s : AVStream) : Prop :=
  0 < s.time_base.num ∧ 0 < s.time_base.den ∧
    (s.duration ≠ AV_NOPTS_VALUE → 0 ≤ s.duration)

/-- Handle/index consistency together with the closed-state condition
that makes it inductive: a closed demuxer holds no stale handle or
index. -/
def DemuxerInv (d : Demuxer) : Prop :=
  (d.format_ctx_ = none → d.video_stream_ = none ∧ d.audio_stream_ = none ∧
    d.video_stream_index_ = -1 ∧ d.audio_stream_index_ = -1) ∧
  (d.video_stream_.isSome ↔ 0 ≤ d.video_stream_index_) ∧
  (d.audio_stream_.isSome ↔ 0 ≤ d.audio_stream_index_)

/-- States reachable through the constructor and the four mutating
operations, with the engine respecting the `av_find_best_stream`
contract. -/
inductive Reachable : Demuxer → Prop where
  | construct (t : MediaType) : Reachable (Demuxer.construct t)
  | openFile (d : Demuxer) (o : OpenOracle) (path : String) :
      Reachable d → OpenOracleWF o → Reachable (d.openFile o path).1
  | readPacket (d : Demuxer) (tape : List ReadResult) (res : Option AVPacket)
      (d2 : Demuxer) : Reachable d → d.readPacket tape = some (res, d2) → Reachable d2
  | seek (d : Demuxer) (ts fl : Int) (ok : Bool) :
      Reachable d → Reachable (d.seek ts fl ok).1
  | close (d : Demuxer) : Reachable d → Reachable d.close

/- Concrete fixtures used by witnesses. -/

/-- A stream with time base 1/1000 and duration 5000 ticks. -/
def st0 : AVStream := ⟨⟨1, 1000⟩, 5000⟩

/-- A probed context: container duration 5000000 µs, one video stream. -/
def ctx0 : AVFormatContext := ⟨5000000, [some st0]⟩

/-- A freshly constructed VIDEO demuxer. -/
def dInit : Demuxer := Demuxer.construct MediaType.VIDEO

/-- An opened VIDEO demuxer positioned on stream 0, with EOF observed. -/
def dOpenEOF : Demuxer :=
  { type_ := MediaType.VIDEO
    format_ctx_ := some ctx0
    video_stream_ := some st0
    audio_stream_ := none
    video_stream_index_ := 0
    audio_stream_index_ := -1
    eof_file_ := true }

/-- An oracle whose stream probe fails. -/
def oProbeFail : OpenOracle := ⟨some ctx0, false, -1, -1⟩

/-- C5: for every instance state, `open` with an empty path returns
false and leaves every field unchanged. -/
theorem openFile_empty_path (d : Demuxer) (o : OpenOracle) (path : String)
    (h : path.isEmpty = true) : d.openFile o path = (d, false) := by
  unfold Demuxer.openFile
  simp [h]

/-- Witness for C5 at the empty path and a concrete instance. -/
theorem openFile_empty_path_witness :
    "".isEmpty = true ∧ dInit.openFile oProbeFail "" = (dInit, false) :=
  ⟨rfl, openFile_empty_path dInit oProbeFail "" rfl⟩

/-- C8: `close` is idempotent — closing twice equals closing once — and
after any `close` the session handle is null, both stream handles are
null, both stream indices are -1, and the EOF flag is false. -/
theorem close_idempotent_resets (d : Demuxer) :
    d.close.close = d.close ∧
    d.close.format_ctx_ = none ∧
    d.close.video_stream_ = none ∧
    d.close.audio_stream_ = none ∧
    d.close.video_stream_index_ = -1 ∧
    d.close.audio_stream_index_ = -1 ∧
    d.close.eof_file_ = false :=
  ⟨rfl, rfl, rfl, rfl, rfl, rfl, rfl⟩

/-- C10: whenever the session handle is null, `getDuration` returns 0
(the state is untouched: `getDuration` is a pure function of the
state). -/
theorem getDuration_closed (d : Demuxer) (h : d.format_ctx_ = none) :
    d.getDuration = 0 := by
  unfold Demuxer.getDuration
  rw [h]

/-- Witness for C10 at a freshly constructed demuxer. -/
theorem getDuration_closed_witness :
    dInit.format_ctx_ = none ∧ dInit.getDuration = 0 :=
  ⟨rfl, getDuration_closed dInit rfl⟩

/-- The loop of `readPacket`, characterized by the first relevant engine
response. -/
theorem readLoop_eq_firstHit (d : Demuxer) (tidx : Int) (tape : List ReadResult) :
    readLoop d tidx tape = (firstHit tidx tape).map fun r =>
      match r with
      | ReadResult.ok p => (some p, d)
      | ReadResult.fail c =>
        (none, if c = AVERROR_EOF then { d with eof_file_ := true } else d) := by
  induction tape with
  | nil => rfl
  | cons r rest ih =>
    cases r with
    | fail c =>
      by_cases hc : c = AVERROR_EOF <;> simp [readLoop, firstHit, hc]
    | ok p =>
      by_cases hp : p.stream_index = tidx <;> simp [readLoop, firstHit, hp, ih]

/-- When the first relevant response is a matching packet, the tape
splits into a prefix of non-matching packets, followed by it. -/
theorem firstHit_ok_split (tidx : Int) (tape : List ReadResult) (p : AVPacket)
    (h : firstHit tidx tape = some (ReadResult.ok p)) :
    p.stream_index = tidx ∧
    ∃ pre rest, tape = pre ++ ReadResult.ok p :: rest ∧
      ∀ r ∈ pre, ∃ q, r = ReadResult.ok q ∧ q.stream_index ≠ tidx := by
  induction tape with
  | nil => simp [firstHit] at h
  | cons r rest ih =>
    cases r with
    | fail c =>
      rw [firstHit] at h
      simp at h
    | ok q =>
      by_cases hq : q.stream_index = tidx
      · rw [firstHit, if_pos hq] at h
        obtain rfl : q = p := by simpa using h
        exact ⟨hq, [], rest, rfl, by simp⟩
      · rw [firstHit, if_neg hq] at h
        obtain ⟨hm, pre, rest2, htape, hpre⟩ := ih h
        refine ⟨hm, ReadResult.ok q :: pre, rest2, by simp [htape], ?_⟩
        intro r hr
        rcases List.mem_cons.mp hr with hr | hr
        · exact ⟨q, hr, hq⟩
        · exact hpre r hr

/-- C1: every packet `readPacket` returns carries the target stream
index; the state is unchanged (nothing is buffered); and every raw
packet the call consumed before the returned one had a different stream
index (released and skipped, never returned). -/
theorem readPacket_target_only (d : Demuxer) (tape : List ReadResult)
    (p : AVPacket) (d2 : Demuxer)
    (h : d.readPacket tape = some (some p, d2)) :
    p.stream_index = d.getStreamIndex ∧ d2 = d ∧
    ∃ pre rest, tape = pre ++ ReadResult.ok p :: rest ∧
      ∀ r ∈ pre, ∃ q, r = ReadResult.ok q ∧ q.stream_index ≠ d.getStreamIndex := by
  unfold Demuxer.readPacket at h
  by_cases hfc : d.format_ctx_.isNone
  · simp [hfc] at h
  by_cases hidx : d.getStreamIndex < 0
  · simp [hfc, hidx] at h
  rw [if_neg (by simpa using hfc), if_neg hidx, readLoop_eq_firstHit] at h
  cases hfh : firstHit d.getStreamIndex tape with
  | none => rw [hfh] at h; simp at h
  | some r =>
    rw [hfh] at h
    cases r with
    | fail c => by_cases hc : c = AVERROR_EOF <;> simp [hc] at h
    | ok q =>
      obtain ⟨hqp, hd⟩ : q = p ∧ d = d2 := by simpa using h
      subst hqp
      obtain ⟨h1, pre, rest, h2, h3⟩ := firstHit_ok_split _ _ _ hfh
      exact ⟨h1, hd.symm, pre, rest, h2, h3⟩

/-- Witness for C1: a concrete run that skips one audio packet and
returns the first video packet. -/
theorem readPacket_target_only_witness :
    dOpenEOF.readPacket [ReadResult.ok ⟨1, 7⟩, ReadResult.ok ⟨0, 9⟩] =
      some (some ⟨0, 9⟩, dOpenEOF) ∧
    (⟨0, 9⟩ : AVPacket).stream_index = dOpenEOF.getStreamIndex ∧
    dOpenEOF = dOpenEOF := by
  refine ⟨by decide, ?_, rfl⟩
  exact (readPacket_target_only dOpenEOF [ReadResult.ok ⟨1, 7⟩, ReadResult.ok ⟨0, 9⟩]
    ⟨0, 9⟩ dOpenEOF (by decide)).1

/-- C2: `readPacket` returns null exactly when (a) the demuxer is not
open, (b) the target stream index is negative, or (c)/(d) the first
relevant engine read fails; in case (c) (`AVERROR_EOF`) exactly the EOF
flag is set, in case (d) (any other error) the state, its EOF flag
included, is unchanged; in cases (a) and (b) the state is unchanged. -/
theorem readPacket_null_cases (d : Demuxer) (tape : List ReadResult)
    (res : Option AVPacket) (d2 : Demuxer)
    (h : d.readPacket tape = some (res, d2)) :
    (res = none ↔ d.format_ctx_ = none ∨ d.getStreamIndex < 0 ∨
      ∃ c, firstHit d.getStreamIndex tape = some (ReadResult.fail c)) ∧
    (d.format_ctx_ = none → d2 = d) ∧
    (d.format_ctx_ ≠ none → d.getStreamIndex < 0 → d2 = d) ∧
    (∀ c, d.format_ctx_ ≠ none → 0 ≤ d.getStreamIndex →
      firstHit d.getStreamIndex tape = some (ReadResult.fail c) →
      (c = AVERROR_EOF → d2 = { d with eof_file_ := true }) ∧
      (c ≠ AVERROR_EOF → d2 = d)) := by
  unfold Demuxer.readPacket at h
  by_cases hfc : d.format_ctx_.isNone
  · obtain ⟨hres, hd2⟩ : none = res ∧ d = d2 := by simpa [hfc] using h
    have hfcn : d.format_ctx_ = none := Option.isNone_iff_eq_none.mp hfc
    refine ⟨by simp [← hres, hfcn], fun _ => hd2.symm, ?_, ?_⟩
    · intro hne; exact absurd hfcn hne
    · intro c hne; exact absurd hfcn hne
  have hfcn : d.format_ctx_ ≠ none := by
    intro he; exact hfc (Option.isNone_iff_eq_none.mpr he)
  by_cases hidx : d.getStreamIndex < 0
  · obtain ⟨hres, hd2⟩ : none = res ∧ d = d2 := by simpa [hfc, hidx] using h
    refine ⟨by simp [← hres, hidx], fun he => absurd he hfcn, fun _ _ => hd2.symm, ?_⟩
    intro c _ hge; omega
  rw [if_neg (by simpa using hfc), if_neg hidx, readLoop_eq_firstHit] at h
  cases hfh : firstHit d.getStreamIndex tape with
  | none => rw [hfh] at h; simp at h
  | some r =>
    rw [hfh] at h
    cases r with
    | ok q =>
      obtain ⟨hqp, hd⟩ : some q = res ∧ d = d2 := by simpa using h
      refine ⟨by simp [← hqp, hfcn, hidx, hfh], fun he => absurd he hfcn,
        fun _ hlt => absurd hlt hidx, ?_⟩
      intro c _ _ hc
      simp at hc
    | fail c =>
      by_cases hc : c = AVERROR_EOF
      · obtain ⟨hres, hd2⟩ : none = res ∧ { d with eof_file_ := true } = d2 := by
          simpa [hc] using h
        refine ⟨by simp [← hres, hfh], fun he => absurd he hfcn,
          fun _ hlt => absurd hlt hidx, ?_⟩
        intro c2 _ _ hc2
        obtain rfl : c = c2 := by simpa using hc2
        exact ⟨fun _ => hd2.symm, fun hne => absurd hc hne⟩
      · obtain ⟨hres, hd2⟩ : none = res ∧ d = d2 := by simpa [hc] using h
        refine ⟨by simp [← hres, hfh], fun he => absurd he hfcn,
          fun _ hlt => absurd hlt hidx, ?_⟩
        intro c2 _ _ hc2
        obtain rfl : c = c2 := by simpa using hc2
        exact ⟨fun he => absurd he hc, fun _ => hd2.symm⟩

/-- Witness for C2: a concrete end-of-file read on an opened demuxer —
null result and the EOF flag set. -/
theorem readPacket_null_cases_witness :
    ({ dOpenEOF with eof_file_ := false } : Demuxer).readPacket
        [ReadResult.fail AVERROR_EOF] = some (none, dOpenEOF) ∧
    ((none : Option AVPacket) = none ↔
      ({ dOpenEOF with eof_file_ := false } : Demuxer).format_ctx_ = none ∨
      ({ dOpenEOF with eof_file_ := false } : Demuxer).getStreamIndex < 0 ∨
      ∃ c, firstHit ({ dOpenEOF with eof_file_ := false } : Demuxer).getStreamIndex
        [ReadResult.fail AVERROR_EOF] = some (ReadResult.fail c)) ∧
    dOpenEOF = { ({ dOpenEOF with eof_file_ := false } : Demuxer) with eof_file_ := true } := by
  have happ := readPacket_null_cases { dOpenEOF with eof_file_ := false }
    [ReadResult.fail AVERROR_EOF] none dOpenEOF (by decide)
  exact ⟨by decide, happ.1,
    ((happ.2.2.2 AVERROR_EOF (by decide) (by decide) (by decide)).1 rfl)⟩

/-- C4: a seek that returns true leaves every field unchanged except the
EOF flag, which becomes false (even if it was true before); a seek that
returns false (not open, no target stream, null stream entry, or engine
failure) leaves the whole state unchanged. -/
theorem seek_eof_contract (d : Demuxer) (ts fl : Int) (ok : Bool) :
    ((d.seek ts fl ok).2.1 = true →
      (d.seek ts fl ok).1 = { d with eof_file_ := false }) ∧
    ((d.seek ts fl ok).2.1 = false → (d.seek ts fl ok).1 = d) := by
  unfold Demuxer.seek
  cases hfc : d.format_ctx_ with
  | none => simp
  | some ctx =>
    by_cases hidx : d.getStreamIndex < 0
    · simp [hidx]
    · simp only [hidx, if_false]
      cases hstr : ctx.streamAt d.getStreamIndex with
      | none => simp
      | some stream =>
        cases ok with
        | false => simp
        | true => simp

/-- Witness for C4: a successful concrete seek on an EOF-flagged open
demuxer clears exactly the EOF flag. -/
theorem seek_eof_contract_witness :
    (dOpenEOF.seek 2500000 0 true).2.1 = true ∧
    (dOpenEOF.seek 2500000 0 true).1 = { dOpenEOF with eof_file_ := false } :=
  ⟨by decide, (seek_eof_contract dOpenEOF 2500000 0 true).1 (by decide)⟩

/-- C7: whenever `seek` reaches the engine (demuxer open, target stream
resolved to a non-null entry), the timestamp it passes to the engine is
the caller's microsecond timestamp rescaled to the stream's time base by
exact integer arithmetic: `(ts * den + (num * 1000000) / 2) / (num *
1000000)`, i.e. the rational conversion `ts * den / (num * 1000000)`
rounded to the nearest integer. -/
theorem seek_target_exact (d : Demuxer) (ctx : AVFormatContext) (stream : AVStream)
    (ts fl : Int) (ok : Bool)
    (hctx : d.format_ctx_ = some ctx)
    (hidx : 0 ≤ d.getStreamIndex)
    (hstr : ctx.streamAt d.getStreamIndex = some stream)
    (hts : 0 ≤ ts)
    (hnum : 0 < stream.time_base.num)
    (hden : 0 ≤ stream.time_base.den) :
    (d.seek ts fl ok).2.2 = some (d.getStreamIndex,
      (ts * stream.time_base.den + stream.time_base.num * 1000000 / 2) /
        (stream.time_base.num * 1000000), fl) := by
  unfold Demuxer.seek
  rw [hctx]
  simp only [not_lt.mpr hidx, if_false]
  rw [hstr]
  have htgt : av_rescale_q ts AV_TIME_BASE_Q stream.time_base =
      (ts * stream.time_base.den + stream.time_base.num * 1000000 / 2) /
        (stream.time_base.num * 1000000) := by
    unfold av_rescale_q av_rescale_rnd AV_TIME_BASE_Q
    rw [if_neg, if_neg]
    · norm_num
    · omega
    · push_neg
      constructor
      · simp only
        nlinarith
      · simp only
        omega
  cases ok <;> simp [htgt]

/-- Witness for C7: seeking to 2,500,000 µs on a 1/1000 time base passes
2500 ticks to the engine. -/
theorem seek_target_exact_witness :
    (dOpenEOF.seek 2500000 0 true).2.2 = some (dOpenEOF.getStreamIndex,
      (2500000 * st0.time_base.den + st0.time_base.num * 1000000 / 2) /
        (st0.time_base.num * 1000000), 0) :=
  seek_target_exact dOpenEOF ctx0 st0 2500000 0 true rfl (by decide) (by decide)
    (by decide) (by decide) (by decide)

/-- C3: for a non-empty path, `open` returns true exactly when the
engine's container open and stream probe both succeed — independently of
the best-stream results — and on probe failure the session is closed
before returning, leaving the freshly-reset closed state. -/
theorem openFile_true_iff (d : Demuxer) (o : OpenOracle) (path : String)
    (hp : path.isEmpty = false) :
    ((d.openFile o path).2 = true ↔
      o.open_input.isSome = true ∧ o.find_stream_info_ok = true) ∧
    (∀ ctx, o.open_input = some ctx → o.find_stream_info_ok = false →
      (d.openFile o path).1 = Demuxer.construct d.type_) := by
  unfold Demuxer.openFile
  cases hoi : o.open_input with
  | none => simp [hp]
  | some ctx =>
    cases hfi : o.find_stream_info_ok with
    | false =>
      refine ⟨by simp [hp], ?_⟩
      intro ctx2 _ _
      simp only [hp, Bool.false_eq_true, if_false, Bool.not_false, if_true]
      by_cases hfc : d.format_ctx_.isSome <;>
        simp [hfc, Demuxer.close, Demuxer.construct]
    | true => simp [hp]

/-- Witness for C3: probe failure on a fresh demuxer — `open` returns
false and the state is the reset closed state. -/
theorem openFile_true_iff_witness :
    ((dInit.openFile oProbeFail "a").2 = true ↔
      oProbeFail.open_input.isSome = true ∧ oProbeFail.find_stream_info_ok = true) ∧
    (dInit.openFile oProbeFail "a").1 = Demuxer.construct dInit.type_ :=
  ⟨(openFile_true_iff dInit oProbeFail "a" rfl).1,
   (openFile_true_iff dInit oProbeFail "a" rfl).2 ctx0 rfl rfl⟩

/-- Exact rescaling of a non-negative value by a non-negative factor over
a positive divisor is non-negative. -/
theorem av_rescale_rnd_nonneg (a b c : Int) (ha : 0 ≤ a) (hb : 0 ≤ b) (hc : 0 < c) :
    0 ≤ av_rescale_rnd a b c := by
  unfold av_rescale_rnd
  rw [if_neg (by omega), if_neg (by omega)]
  have hr : 0 ≤ c / 2 := Int.ediv_nonneg hc.le (by norm_num)
  exact Int.ediv_nonneg (by nlinarith) hc.le

/-- A stream duration rescaled to microseconds is non-negative for a
well-formed stream. -/
theorem streamDurationUS_nonneg (s : AVStream) (hs : StreamWF s) (v : Int)
    (hv : streamDurationUS (some s) = some v) : 0 ≤ v := by
  simp only [streamDurationUS] at hv
  by_cases hd : s.duration ≠ AV_NOPTS_VALUE
  · rw [if_pos hd] at hv
    obtain rfl : _ = v := by simpa using hv
    exact av_rescale_rnd_nonneg _ _ _ (hs.2.2 hd)
      (by simp only [AV_TIME_BASE_Q]; nlinarith [hs.1])
      (by simpa [AV_TIME_BASE_Q] using hs.2.1)
  · rw [if_neg hd] at hv
    simp at hv

/-- C6: for an opened session whose engine-reported fields satisfy the
FFmpeg contract, `getDuration` is non-negative and equals the spec's
resolution cascade: container duration, else target stream rescaled,
else video stream rescaled, else audio stream rescaled, else zero. -/
theorem getDuration_nonneg_order (d : Demuxer) (ctx : AVFormatContext)
    (hctx : d.format_ctx_ = some ctx)
    (hdur : ctx.duration ≠ AV_NOPTS_VALUE → 0 ≤ ctx.duration)
    (hv : ∀ s, d.video_stream_ = some s → StreamWF s)
    (ha : ∀ s, d.audio_stream_ = some s → StreamWF s) :
    0 ≤ d.getDuration ∧ d.getDuration = durationResolutionOrder d ctx := by
  have htgt : ∀ s, d.getAVStream = some s → StreamWF s := by
    intro s hs
    unfold Demuxer.getAVStream at hs
    by_cases ht : d.type_ = MediaType.VIDEO
    · exact hv s (by rwa [if_pos ht] at hs)
    · exact ha s (by rwa [if_neg ht] at hs)
  have hsd : ∀ os : Option AVStream, (∀ s, os = some s → StreamWF s) →
      ∀ v, streamDurationUS os = some v → 0 ≤ v := by
    intro os hos v hv2
    cases os with
    | none => simp [streamDurationUS] at hv2
    | some s => exact streamDurationUS_nonneg s (hos s rfl) v hv2
  have key : d.getDuration =
      (if ctx.duration ≠ AV_NOPTS_VALUE then ctx.duration
       else
         match streamDurationUS d.getAVStream with
         | some v => v
         | none =>
           match streamDurationUS d.video_stream_ with
           | some v => v
           | none =>
             match streamDurationUS d.audio_stream_ with
             | some v => v
             | none => 0) := by
    unfold Demuxer.getDuration
    rw [hctx]
  rw [key]
  unfold durationResolutionOrder
  by_cases hcd : ctx.duration ≠ AV_NOPTS_VALUE
  · rw [if_pos hcd, if_pos hcd]
    exact ⟨hdur hcd, rfl⟩
  · rw [if_neg hcd, if_neg hcd]
    cases h1 : streamDurationUS d.getAVStream with
    | some v =>
      refine ⟨hsd _ htgt v h1, ?_⟩
      simp [Option.orElse]
    | none =>
      cases h2 : streamDurationUS d.video_stream_ with
      | some v =>
        refine ⟨hsd _ hv v h2, ?_⟩
        simp [Option.orElse]
      | none =>
        cases h3 : streamDurationUS d.audio_stream_ with
        | some v =>
          refine ⟨hsd _ ha v h3, ?_⟩
          simp [Option.orElse]
        | none => simp [Option.orElse]

/-- Witness for C6 at a concrete opened demuxer with a 5-second
container duration. -/
theorem getDuration_nonneg_order_witness :
    0 ≤ dOpenEOF.getDuration ∧
      dOpenEOF.getDuration = durationResolutionOrder dOpenEOF ctx0 := by
  refine getDuration_nonneg_order dOpenEOF ctx0 rfl (fun _ => by decide) ?_ ?_
  · intro s hs
    obtain rfl : st0 = s := by simpa [dOpenEOF] using hs
    exact ⟨by decide, by decide, fun _ => by decide⟩
  · intro s hs
    simp [dOpenEOF] at hs

/-- A `readPacket` call changes at most the EOF flag. -/
theorem readPacket_state (d : Demuxer) (tape : List ReadResult)
    (res : Option AVPacket) (d2 : Demuxer)
    (h : d.readPacket tape = some (res, d2)) :
    d2 = d ∨ d2 = { d with eof_file_ := true } := by
  unfold Demuxer.readPacket at h
  by_cases hfc : d.format_ctx_.isNone
  · left
    obtain ⟨_, hd⟩ : none = res ∧ d = d2 := by simpa [hfc] using h
    exact hd.symm
  by_cases hidx : d.getStreamIndex < 0
  · left
    obtain ⟨_, hd⟩ : none = res ∧ d = d2 := by simpa [hfc, hidx] using h
    exact hd.symm
  rw [if_neg (by simpa using hfc), if_neg hidx, readLoop_eq_firstHit] at h
  cases hfh : firstHit d.getStreamIndex tape with
  | none => rw [hfh] at h; simp at h
  | some r =>
    rw [hfh] at h
    cases r with
    | ok q =>
      obtain ⟨_, hd⟩ : some q = res ∧ d = d2 := by simpa using h
      exact Or.inl hd.symm
    | fail c =>
      by_cases hc : c = AVERROR_EOF
      · right
        obtain ⟨_, hd⟩ : none = res ∧ { d with eof_file_ := true } = d2 := by
          simpa [hc] using h
        exact hd.symm
      · left
        obtain ⟨_, hd⟩ : none = res ∧ d = d2 := by simpa [hc] using h
        exact hd.symm

/-- A `seek` call changes at most the EOF flag. -/
theorem seek_state (d : Demuxer) (ts fl : Int) (ok : Bool) :
    (d.seek ts fl ok).1 = d ∨ (d.seek ts fl ok).1 = { d with eof_file_ := false } := by
  unfold Demuxer.seek
  cases hfc : d.format_ctx_ with
  | none => simp
  | some ctx =>
    by_cases hidx : d.getStreamIndex < 0
    · simp [hidx]
    · simp only [hidx, if_false]
      cases hstr : ctx.streamAt d.getStreamIndex with
      | none => simp
      | some stream => cases ok <;> simp

/-- The invariant only concerns the handle and index fields, so it is
stable under changes of the EOF flag. -/
theorem inv_eof_change (d : Demuxer) (b : Bool) (h : DemuxerInv d) :
    DemuxerInv { d with eof_file_ := b } := h

/-- Closing establishes the invariant. -/
theorem inv_close (d : Demuxer) : DemuxerInv d.close := by
  refine ⟨fun _ => ⟨rfl, rfl, rfl, rfl⟩, ?_, ?_⟩ <;> simp [Demuxer.close]

/-- The state after a fully successful `open`: both engine calls
succeeded, so the context is installed, both indices take the
best-stream results, and a handle is fetched from the stream table
exactly when its index is non-negative. -/
theorem openFile_success_state (d : Demuxer) (o : OpenOracle) (path : String)
    (ctx : AVFormatContext) (hp : path.isEmpty = false)
    (hoi : o.open_input = some ctx) (hfi : o.find_stream_info_ok = true) :
    d.openFile o path =
      ({ type_ := d.type_
         format_ctx_ := some ctx
         video_stream_ := if 0 ≤ o.best_video then ctx.streamAt o.best_video
           else (if d.format_ctx_.isSome then d.close else d).video_stream_
         audio_stream_ := if 0 ≤ o.best_audio then ctx.streamAt o.best_audio
           else (if d.format_ctx_.isSome then d.close else d).audio_stream_
         video_stream_index_ := o.best_video
         audio_stream_index_ := o.best_audio
         eof_file_ := (if d.format_ctx_.isSome then d.close else d).eof_file_ }, true) := by
  by_cases hfc : d.format_ctx_.isSome <;>
    by_cases hbv : 0 ≤ o.best_video <;>
    by_cases hba : 0 ≤ o.best_audio <;>
    simp [Demuxer.openFile, hp, hoi, hfi, hfc, hbv, hba, Demuxer.close]

/-- Opening preserves the invariant when the engine respects the
best-stream contract. -/
theorem inv_openFile (d : Demuxer) (o : OpenOracle) (path : String)
    (hd : DemuxerInv d) (ho : OpenOracleWF o) :
    DemuxerInv (d.openFile o path).1 := by
  by_cases hp : path.isEmpty
  · unfold Demuxer.openFile
    simpa [hp] using hd
  have hp2 : path.isEmpty = false := by simpa using hp
  have hd1 : DemuxerInv (if d.format_ctx_.isSome then d.close else d) := by
    by_cases hfc : d.format_ctx_.isSome
    · simpa [hfc] using inv_close d
    · simpa [hfc] using hd
  have hd1fields : (if d.format_ctx_.isSome then d.close else d).video_stream_ = none ∧
      (if d.format_ctx_.isSome then d.close else d).audio_stream_ = none := by
    by_cases hfc : d.format_ctx_.isSome
    · simp [hfc, Demuxer.close]
    · have hfn : d.format_ctx_ = none := by
        cases hfe : d.format_ctx_ with
        | none => rfl
        | some c => exact absurd (by simp [hfe]) hfc
      obtain ⟨h1, h2, _, _⟩ := hd.1 hfn
      simp [hfc, h1, h2]
  cases hoi : o.open_input with
  | none =>
    unfold Demuxer.openFile
    simpa [hp2, hoi] using hd1
  | some ctx =>
    cases hfi : o.find_stream_info_ok with
    | false =>
      unfold Demuxer.openFile
      simp only [hp2, Bool.false_eq_true, if_false, hoi, hfi, Bool.not_false, if_true]
      exact inv_close _
    | true =>
      rw [openFile_success_state d o path ctx hp2 hoi hfi]
      refine ⟨fun he => by simp at he, ?_, ?_⟩
      · by_cases hbv : 0 ≤ o.best_video
        · simp [hbv, (ho ctx hoi).1 hbv]
        · simp [hbv, hd1fields.1]
      · by_cases hba : 0 ≤ o.best_audio
        · simp [hba, (ho ctx hoi).2 hba]
        · simp [hba, hd1fields.2]

/-- Every reachable state satisfies the inductive invariant. -/
theorem reachable_inv (d : Demuxer) (h : Reachable d) : DemuxerInv d := by
  induction h with
  | construct t => exact ⟨fun _ => ⟨rfl, rfl, rfl, rfl⟩, by simp [Demuxer.construct], by simp [Demuxer.construct]⟩
  | openFile d o path _ ho ih => exact inv_openFile d o path ih ho
  | readPacket d tape res d2 _ hread ih =>
    rcases readPacket_state d tape res d2 hread with rfl | rfl
    · exact ih
    · exact inv_eof_change d true ih
  | seek d ts fl ok _ ih =>
    rcases seek_state d ts fl ok with he | he <;> rw [he]
    · exact ih
    · exact inv_eof_change d false ih
  | close d _ _ => exact inv_close d

/-- C9: in every state reachable through the constructor, `open`,
`readPacket`, `seek` and `close` (with the engine meeting the
best-stream contract), each stream handle is non-null exactly when the
matching stream index is non-negative; consequently `getAVStream()` is
non-null exactly when `getStreamIndex()` is non-negative. -/
theorem reachable_handle_index_consistent (d : Demuxer) (h : Reachable d) :
    (d.video_stream_.isSome ↔ 0 ≤ d.video_stream_index_) ∧
    (d.audio_stream_.isSome ↔ 0 ≤ d.audio_stream_index_) ∧
    (d.getAVStream.isSome ↔ 0 ≤ d.getStreamIndex) := by
  obtain ⟨_, hvid, haud⟩ := reachable_inv d h
  refine ⟨hvid, haud, ?_⟩
  unfold Demuxer.getAVStream Demuxer.getStreamIndex
  by_cases ht : d.type_ = MediaType.VIDEO
  · simpa [ht] using hvid
  · simpa [ht] using haud

/-- Witness for C9: the consistency holds at a state reached by
constructing an AUDIO demuxer and opening a video-only file — the audio
handle stays null and the audio index stays negative. -/
theorem reachable_handle_index_consistent_witness :
    (((Demuxer.construct MediaType.AUDIO).openFile ⟨some ctx0, true, 0, -1⟩ "a").1.video_stream_.isSome ↔
      0 ≤ ((Demuxer.construct MediaType.AUDIO).openFile ⟨some ctx0, true, 0, -1⟩ "a").1.video_stream_index_) ∧
    (((Demuxer.construct MediaType.AUDIO).openFile ⟨some ctx0, true, 0, -1⟩ "a").1.audio_stream_.isSome ↔
      0 ≤ ((Demuxer.construct MediaType.AUDIO).openFile ⟨some ctx0, true, 0, -1⟩ "a").1.audio_stream_index_) ∧
    (((Demuxer.construct MediaType.AUDIO).openFile ⟨some ctx0, true, 0, -1⟩ "a").1.getAVStream.isSome ↔
      0 ≤ ((Demuxer.construct MediaType.AUDIO).openFile ⟨some ctx0, true, 0, -1⟩ "a").1.getStreamIndex) :=
  reachable_handle_index_consistent _
    (Reachable.openFile (Demuxer.construct MediaType.AUDIO) ⟨some ctx0, true, 0, -1⟩ "a"
      (Reachable.construct MediaType.AUDIO)
      (by intro ctx hctx
          obtain rfl : ctx0 = ctx := by simpa using hctx
          exact ⟨fun _ => by decide, fun hba => absurd hba (by decide)⟩))
